import Mathlib

/-!
Verification of the redux-rs state-management core (src/store.rs, src/reducer.rs,
src/middleware.rs, src/subscription.rs) against its specification.

Shallow embedding notes:
* `Store<State, Action>` (src/store.rs lines 6-11) becomes a Lean structure.
  The Rust `Vec<Box<dyn Middleware<State, Action>>>` is a list of functions.
  A middleware receives `&Store` (an immutable borrow); since all `Store`
  fields are private, the only observation a middleware can make through that
  reference is `store.state()`, so the embedded middleware type is
  `State → Action → Option Action` (the read view is exactly the state).
* Subscriptions are `Fn(&State)` side-effecting callbacks; side effects are
  invisible to a pure embedding, so each subscription is an opaque value of a
  type parameter `Listener`, and the dispatch functions additionally return a
  trace of the calls that the Rust code performs: which middleware indices ran
  (with the state view and the action each received), which reducer
  applications happened (with their two arguments), and which subscriptions
  were called (with the state each received). The `Store` components of every
  result mirror the Rust code exactly; the traces only record the calls the
  Rust code makes, in order.
-/

/-- The store of src/store.rs: the active reducer (`StoreReducer` is
`fn(&State, &Action) -> State`), the current state, the ordered middleware
sequence and the ordered subscription sequence. -/
structure Store (State Action Listener : Type) where
  reducer : State → Action → State
  state : State
  middleware : List (State → Action → Option Action)
  subscriptions : List Listener

/-- The trace-augmented outcome of a dispatch: the resulting store, plus the
ordered call traces. `mwCalls` records, for each middleware invocation, the
index invoked, the state observable through the store view it received, and
the action it was given. `reducerCalls` records each reducer application with
its state and action arguments. `subCalls` records each subscription
notification with the state it received. -/
structure DispatchResult (State Action Listener : Type) where
  store : Store State Action Listener
  mwCalls : List (Nat × State × Action)
  reducerCalls : List (State × Action)
  subCalls : List (Listener × State)

namespace Store

variable {State Action Listener : Type}

/-- `Store::new` (src/store.rs): given reducer and initial state, empty
middleware and subscription sequences. -/
def new (reducer : State → Action → State) (initial_state : State) :
    Store State Action Listener :=
  { reducer := reducer
    state := initial_state
    middleware := []
    subscriptions := [] }

/-- `Store::dispatch_subscriptions` (src/store.rs): calls every subscription,
in sequence order, with the current state. Returned here as the trace of
those calls. -/
def dispatch_subscriptions (store : Store State Action Listener) :
    List (Listener × State) :=
  store.subscriptions.map fun subscription => (subscription, store.state)

/-- `Store::dispatch_reducer` (src/store.rs): replaces the state with
`reducer(state, action)`, then runs the subscriptions on the updated store.
Returns the updated store, the reducer-call trace and the subscription-call
trace. -/
def dispatch_reducer (store : Store State Action Listener) (action : Action) :
    Store State Action Listener × List (State × Action) × List (Listener × State) :=
  let store2 := { store with state := store.reducer store.state action }
  (store2, [(store.state, action)], store2.dispatch_subscriptions)

/-- `Store::dispatch_middleware` (src/store.rs): if `index` equals the
middleware count, run the reducer; otherwise invoke the middleware at `index`
with the store view and the action, stopping the whole chain if it returns
`none` and recursing at `index + 1` with the transformed action otherwise.
The out-of-bounds `none` arm mirrors the Rust indexing panic site, which is
unreachable because the walk starts at 0 and only ever increments up to the
length. -/
def dispatch_middleware (store : Store State Action Listener) (index : Nat)
    (action : Action) : DispatchResult State Action Listener :=
  if index = store.middleware.length then
    let (store2, rc, sc) := store.dispatch_reducer action
    ⟨store2, [], rc, sc⟩
  else
    if h : index < store.middleware.length then
      match store.middleware[index] store.state action with
      | some action2 =>
        let r := store.dispatch_middleware (index + 1) action2
        ⟨r.store, (index, store.state, action) :: r.mwCalls, r.reducerCalls, r.subCalls⟩
      | none => ⟨store, [(index, store.state, action)], [], []⟩
    else ⟨store, [], [], []⟩
termination_by store.middleware.length - index
decreasing_by omega

/-- `Store::dispatch` (src/store.rs): with no middleware, run the reducer
directly; otherwise walk the middleware chain starting at index 0. -/
def dispatch (store : Store State Action Listener) (action : Action) :
    DispatchResult State Action Listener :=
  if store.middleware.isEmpty then
    let (store2, rc, sc) := store.dispatch_reducer action
    ⟨store2, [], rc, sc⟩
  else
    store.dispatch_middleware 0 action

/-- `Store::subscribe` (src/store.rs): pushes the callback onto the end of the
subscription sequence. -/
def subscribe (store : Store State Action Listener) (callback : Listener) :
    Store State Action Listener :=
  { store with subscriptions := store.subscriptions ++ [callback] }

/-- `Store::add_middleware` (src/store.rs): pushes the middleware onto the end
of the middleware sequence. -/
def add_middleware (store : Store State Action Listener)
    (middleware : State → Action → Option Action) :
    Store State Action Listener :=
  { store with middleware := store.middleware ++ [middleware] }

/-- `Store::replace_reducer` (src/store.rs): overwrites the active reducer. -/
def replace_reducer (store : Store State Action Listener)
    (reducer : State → Action → State) : Store State Action Listener :=
  { store with reducer := reducer }

end Store

/-- `Reducible::reduce` (src/reducer.rs): for a function reducer, `reduce` is
plain application. -/
def Reducible.reduce {State Action : Type} (f : State → Action → State)
    (state : State) (action : Action) : State :=
  f state action

/-- The `combine_reducers!` macro (src/reducer.rs), modelled on a nonempty
list written as head plus tail: one reducer is itself; otherwise the combined
tail is `reduce`-applied to `first state action` and the same action. -/
def combine_reducers {State Action : Type} (first : State → Action → State) :
    List (State → Action → State) → State → Action → State
  | [] => first
  | second :: rest => fun state action =>
      Reducible.reduce (combine_reducers second rest) (first state action) action

/-- The pure outcome of the middleware chain: threads the action through the
middleware functions in order, each observing the same state view; `none` as
soon as any middleware vetoes. -/
def chainFrom {State Action : Type}
    (mws : List (State → Action → Option Action)) (st : State) (a : Action) :
    Option Action :=
  match mws with
  | [] => some a
  | m :: rest =>
    match m st a with
    | none => none
    | some a2 => chainFrom rest st a2

/-- The middleware-call trace of the walk over `mws`, labelling calls from
`index`: each middleware in turn is called with the fixed state view and the
threaded action, and the trace stops right after the first veto. -/
def walkCalls {State Action : Type}
    (mws : List (State → Action → Option Action)) (st : State) (a : Action)
    (index : Nat) : List (Nat × State × Action) :=
  match mws with
  | [] => []
  | m :: rest =>
    (index, st, a) ::
      match m st a with
      | none => []
      | some a2 => walkCalls rest st a2 (index + 1)

/-- Characterization of the recursive middleware walk, for any in-bounds
starting index: the walk performs exactly the calls of `walkCalls` on the
remaining middleware, and the final store, reducer calls and subscription
calls are determined by the pure chain outcome. -/
theorem dispatch_middleware_eq {State Action Listener : Type}
    (store : Store State Action Listener) :
    ∀ (n index : Nat) (action : Action), store.middleware.length - index = n →
      index ≤ store.middleware.length →
      store.dispatch_middleware index action =
        match chainFrom (store.middleware.drop index) store.state action with
        | some a2 =>
            ⟨{ store with state := store.reducer store.state a2 },
             walkCalls (store.middleware.drop index) store.state action index,
             [(store.state, a2)],
             store.subscriptions.map fun s => (s, store.reducer store.state a2)⟩
        | none =>
            ⟨store, walkCalls (store.middleware.drop index) store.state action index,
             [], []⟩ := by
  intro n
  induction n with
  | zero =>
    intro index action hn hle
    have hidx : index = store.middleware.length := by omega
    subst hidx
    rw [Store.dispatch_middleware, if_pos rfl]
    simp [Store.dispatch_reducer, Store.dispatch_subscriptions, List.drop_length,
      chainFrom, walkCalls]
  | succ n ih =>
    intro index action hn hle
    have hlt : index < store.middleware.length := by omega
    have hne : ¬ index = store.middleware.length := by omega
    have hdrop : store.middleware.drop index
        = store.middleware[index] :: store.middleware.drop (index + 1) :=
      List.drop_eq_getElem_cons hlt
    rw [Store.dispatch_middleware, if_neg hne, dif_pos hlt, hdrop]
    cases hmv : store.middleware[index] store.state action with
    | none =>
      simp [chainFrom, walkCalls, hmv]
    | some action2 =>
      have hrec := ih (index + 1) action2 (by omega) (by omega)
      simp only [chainFrom, walkCalls, hmv, hrec]
      cases hc : chainFrom (store.middleware.drop (index + 1)) store.state action2 with
      | none => simp [hc]
      | some a2 => simp [hc]

/-- Characterization of `Store::dispatch` itself: both the empty-middleware
fast path and the walk from index 0 produce the calls of `walkCalls` over the
whole middleware sequence, with store, reducer calls and subscription calls
determined by the pure chain outcome. -/
theorem dispatch_eq {State Action Listener : Type}
    (store : Store State Action Listener) (action : Action) :
    store.dispatch action =
      match chainFrom store.middleware store.state action with
      | some a2 =>
          ⟨{ store with state := store.reducer store.state a2 },
           walkCalls store.middleware store.state action 0,
           [(store.state, a2)],
           store.subscriptions.map fun s => (s, store.reducer store.state a2)⟩
      | none =>
          ⟨store, walkCalls store.middleware store.state action 0, [], []⟩ := by
  rw [Store.dispatch]
  by_cases he : store.middleware.isEmpty
  · have hnil : store.middleware = [] := List.isEmpty_iff.mp he
    rw [if_pos he]
    simp [hnil, chainFrom, walkCalls, Store.dispatch_reducer,
      Store.dispatch_subscriptions]
  · rw [if_neg he]
    have h := dispatch_middleware_eq store store.middleware.length 0 action
      (by omega) (by omega)
    simpa using h

/-- Completed-chain corollary of `dispatch_eq`. -/
theorem dispatch_eq_some {State Action Listener : Type}
    (store : Store State Action Listener) (action a2 : Action)
    (h : chainFrom store.middleware store.state action = some a2) :
    store.dispatch action =
      ⟨{ store with state := store.reducer store.state a2 },
       walkCalls store.middleware store.state action 0,
       [(store.state, a2)],
       store.subscriptions.map fun s => (s, store.reducer store.state a2)⟩ := by
  rw [dispatch_eq, h]

/-- Vetoed-chain corollary of `dispatch_eq`. -/
theorem dispatch_eq_none {State Action Listener : Type}
    (store : Store State Action Listener) (action : Action)
    (h : chainFrom store.middleware store.state action = none) :
    store.dispatch action =
      ⟨store, walkCalls store.middleware store.state action 0, [], []⟩ := by
  rw [dispatch_eq, h]

/-- The walk performs at most one call per middleware. -/
theorem walkCalls_length_le {State Action : Type}
    (mws : List (State → Action → Option Action)) :
    ∀ (st : State) (a : Action) (index : Nat),
      (walkCalls mws st a index).length ≤ mws.length := by
  induction mws with
  | nil => intro st a index; simp [walkCalls]
  | cons m rest ih =>
    intro st a index
    rw [walkCalls]
    cases m st a with
    | none => simp
    | some a2 => simpa using ih st a2 (index + 1)

/-- The indices the walk touches are consecutive, starting at the walk's
starting index. -/
theorem walkCalls_map_fst {State Action : Type}
    (mws : List (State → Action → Option Action)) :
    ∀ (st : State) (a : Action) (index : Nat),
      (walkCalls mws st a index).map Prod.fst =
        List.range' index (walkCalls mws st a index).length := by
  induction mws with
  | nil => intro st a index; simp [walkCalls]
  | cons m rest ih =>
    intro st a index
    rw [walkCalls]
    cases m st a with
    | none => simp [List.range']
    | some a2 =>
      simp only [List.map_cons, List.length_cons, List.range'_succ]
      rw [ih st a2 (index + 1)]

/-- Every call the walk performs observes the same state view. -/
theorem walkCalls_state_eq {State Action : Type}
    (mws : List (State → Action → Option Action)) :
    ∀ (st : State) (a : Action) (index : Nat) (e : Nat × State × Action),
      e ∈ walkCalls mws st a index → e.2.1 = st := by
  induction mws with
  | nil => intro st a index e he; simp [walkCalls] at he
  | cons m rest ih =>
    intro st a index e he
    rw [walkCalls] at he
    rcases List.mem_cons.mp he with h1 | h2
    · rw [h1]
    · cases hmv : m st a with
      | none => rw [hmv] at h2; simp at h2
      | some a2 => rw [hmv] at h2; exact ih st a2 (index + 1) e h2

/-- When the chain over the first `j` middleware completes with action `aj`,
the walk's `j`-th call is middleware number `index + j`, called with the
state view and `aj`. -/
theorem walkCalls_getElem {State Action : Type} :
    ∀ (j : Nat) (mws : List (State → Action → Option Action)) (st : State)
      (a aj : Action) (index : Nat),
      chainFrom (mws.take j) st a = some aj → j < mws.length →
      (walkCalls mws st a index)[j]? = some (index + j, st, aj) := by
  intro j
  induction j with
  | zero =>
    intro mws st a aj index hch hlt
    cases mws with
    | nil => simp at hlt
    | cons m rest =>
      simp [chainFrom] at hch
      subst hch
      simp [walkCalls]
  | succ j ih =>
    intro mws st a aj index hch hlt
    cases mws with
    | nil => simp at hlt
    | cons m rest =>
      rw [List.take_succ_cons, chainFrom] at hch
      cases hmv : m st a with
      | none => rw [hmv] at hch; simp at hch
      | some a2 =>
        rw [hmv] at hch
        rw [walkCalls, hmv]
        have hlen : j < rest.length := by simpa using hlt
        have := ih rest st a2 aj (index + 1) hch hlen
        rw [List.getElem?_cons_succ, this]
        have harith : index + 1 + j = index + (j + 1) := by omega
        rw [harith]

/-- When the chain vetoes, the walk's last call is the vetoing one: its
middleware returned `none` on the state view and the action it received. -/
theorem walkCalls_veto {State Action : Type} :
    ∀ (mws : List (State → Action → Option Action)) (st : State) (a : Action)
      (index : Nat), chainFrom mws st a = none →
      ∃ k ak m, (walkCalls mws st a index).getLast? = some (k, st, ak) ∧
        index ≤ k ∧ mws[k - index]? = some m ∧ m st ak = none := by
  intro mws
  induction mws with
  | nil => intro st a index hch; simp [chainFrom] at hch
  | cons m rest ih =>
    intro st a index hch
    rw [chainFrom] at hch
    cases hmv : m st a with
    | none =>
      have hcons : walkCalls (m :: rest) st a index = [(index, st, a)] := by
        rw [walkCalls, hmv]
      refine ⟨index, a, m, ?_, le_refl index, ?_, hmv⟩
      · rw [hcons]; simp
      · simp
    | some a2 =>
      rw [hmv] at hch
      obtain ⟨k, ak, m2, hlast, hge, hget, hnone⟩ := ih st a2 (index + 1) hch
      have hcons : walkCalls (m :: rest) st a index
          = (index, st, a) :: walkCalls rest st a2 (index + 1) := by
        rw [walkCalls, hmv]
      refine ⟨k, ak, m2, ?_, by omega, ?_, hnone⟩
      · rw [hcons]
        cases htail : walkCalls rest st a2 (index + 1) with
        | nil => rw [htail] at hlast; simp at hlast
        | cons e es =>
          rw [htail] at hlast
          rw [List.getLast?_cons_cons]
          exact hlast
      · have harith : k - index = (k - (index + 1)) + 1 := by omega
        rw [harith, List.getElem?_cons_succ]
        exact hget

/-- Concrete store used to instantiate claims: additive reducer, state 5,
no middleware, one subscription (subscriptions are opaque tokens here). -/
def demoStoreNoMw : Store Nat Nat Nat :=
  { reducer := fun s a => s + a
    state := 5
    middleware := []
    subscriptions := [7] }

/-- Concrete store with two middleware: the first increments the action, the
second vetoes any action above 3. -/
def demoStoreMw : Store Nat Nat Nat :=
  { reducer := fun s a => s + a
    state := 5
    middleware := [fun _ a => some (a + 1), fun _ a => if 3 < a then none else some a]
    subscriptions := [7, 8] }

/-- C1: with no middleware registered, `dispatch(a)` replaces the stored state
with `reducer(s, a)`, where `s` is the state before the call. -/
theorem dispatch_without_middleware_applies_reducer {State Action Listener : Type}
    (store : Store State Action Listener) (a : Action)
    (h : store.middleware = []) :
    (store.dispatch a).store.state = store.reducer store.state a := by
  rw [dispatch_eq store a, h]
  simp [chainFrom]

theorem dispatch_without_middleware_applies_reducer_witness :
    demoStoreNoMw.middleware = [] ∧
    (demoStoreNoMw.dispatch 3).store.state
      = demoStoreNoMw.reducer demoStoreNoMw.state 3 :=
  ⟨rfl, dispatch_without_middleware_applies_reducer demoStoreNoMw 3 rfl⟩

/-- C2: if some middleware returns `none` during `dispatch(a)` (that is, the
pure chain outcome vetoes), the dispatch aborts at that point: the whole
store — hence the state — is unchanged, the reducer is never invoked, no
subscription is called, the invoked middleware indices are the consecutive
initial segment `0, 1, ...` of the sequence, and the last middleware invoked
is exactly one that returned `none` on the arguments it received. -/
theorem dispatch_veto_aborts {State Action Listener : Type}
    (store : Store State Action Listener) (a : Action)
    (h : chainFrom store.middleware store.state a = none) :
    (store.dispatch a).store = store ∧
    (store.dispatch a).reducerCalls = [] ∧
    (store.dispatch a).subCalls = [] ∧
    (store.dispatch a).mwCalls.map Prod.fst =
      List.range' 0 (store.dispatch a).mwCalls.length ∧
    ∃ k ak m, (store.dispatch a).mwCalls.getLast? = some (k, store.state, ak) ∧
      store.middleware[k]? = some m ∧ m store.state ak = none := by
  rw [dispatch_eq_none store a h]
  refine ⟨rfl, rfl, rfl, walkCalls_map_fst store.middleware store.state a 0, ?_⟩
  obtain ⟨k, ak, m, hlast, hge, hget, hnone⟩ :=
    walkCalls_veto store.middleware store.state a 0 h
  exact ⟨k, ak, m, hlast, by simpa using hget, hnone⟩

theorem dispatch_veto_aborts_witness :
    chainFrom demoStoreMw.middleware demoStoreMw.state 3 = none ∧
    ((demoStoreMw.dispatch 3).store = demoStoreMw ∧
     (demoStoreMw.dispatch 3).reducerCalls = [] ∧
     (demoStoreMw.dispatch 3).subCalls = [] ∧
     (demoStoreMw.dispatch 3).mwCalls.map Prod.fst =
       List.range' 0 (demoStoreMw.dispatch 3).mwCalls.length ∧
     ∃ k ak m, (demoStoreMw.dispatch 3).mwCalls.getLast?
         = some (k, demoStoreMw.state, ak) ∧
       demoStoreMw.middleware[k]? = some m ∧ m demoStoreMw.state ak = none) :=
  ⟨rfl, dispatch_veto_aborts demoStoreMw 3 rfl⟩

/-- C3: whenever the chain over the first `j` middleware completes and
transforms the action into `aj`, middleware `j` is invoked with `aj` (the
transformed action supersedes the original for all later stages), and if the
whole chain completes with `af`, the reducer is applied exactly once, to the
state and the final transformed action `af`. -/
theorem dispatch_threads_transformed_action {State Action Listener : Type}
    (store : Store State Action Listener) (a : Action) :
    (∀ j aj, j < store.middleware.length →
       chainFrom (store.middleware.take j) store.state a = some aj →
       (store.dispatch a).mwCalls[j]? = some (j, store.state, aj)) ∧
    (∀ af, chainFrom store.middleware store.state a = some af →
       (store.dispatch a).reducerCalls = [(store.state, af)]) := by
  constructor
  · intro j aj hlt hch
    have hmw : (store.dispatch a).mwCalls
        = walkCalls store.middleware store.state a 0 := by
      rw [dispatch_eq store a]
      cases hc : chainFrom store.middleware store.state a <;> simp
    rw [hmw]
    have hg := walkCalls_getElem j store.middleware store.state a aj 0 hch hlt
    simpa using hg
  · intro af hch
    rw [dispatch_eq_some store a af hch]

theorem dispatch_threads_transformed_action_witness :
    (demoStoreMw.dispatch 1).mwCalls[1]? = some (1, demoStoreMw.state, 2) ∧
    (demoStoreMw.dispatch 1).reducerCalls = [(demoStoreMw.state, 2)] :=
  ⟨(dispatch_threads_transformed_action demoStoreMw 1).1 1 2 (by decide) rfl,
   (dispatch_threads_transformed_action demoStoreMw 1).2 2 rfl⟩

/-- C4: for a non-vetoed dispatch (the chain completes with `af`), the stored
state becomes `reducer(s, af)` and the subscription calls are exactly one per
registered subscription, in registration order, each receiving the
post-reducer state. -/
theorem dispatch_notifies_subscriptions_in_order {State Action Listener : Type}
    (store : Store State Action Listener) (a af : Action)
    (h : chainFrom store.middleware store.state a = some af) :
    (store.dispatch a).store.state = store.reducer store.state af ∧
    (store.dispatch a).subCalls =
      store.subscriptions.map fun s => (s, (store.dispatch a).store.state) := by
  rw [dispatch_eq_some store a af h]
  exact ⟨rfl, rfl⟩

theorem dispatch_notifies_subscriptions_in_order_witness :
    chainFrom demoStoreMw.middleware demoStoreMw.state 1 = some 2 ∧
    ((demoStoreMw.dispatch 1).store.state
        = demoStoreMw.reducer demoStoreMw.state 2 ∧
     (demoStoreMw.dispatch 1).subCalls =
       demoStoreMw.subscriptions.map
         fun s => (s, (demoStoreMw.dispatch 1).store.state)) :=
  ⟨rfl, dispatch_notifies_subscriptions_in_order demoStoreMw 1 2 rfl⟩

/-- C5: the combined reducer threads the state left to right under the same
action — it equals the left fold of the reducer list — and in particular for
three reducers `combine_reducers r1 [r2, r3] s a = r3 (r2 (r1 s a) a) a`. -/
theorem combine_reducers_threads_left_to_right :
    (∀ (State Action : Type) (first : State → Action → State)
       (rest : List (State → Action → State)) (s : State) (a : Action),
       combine_reducers first rest s a
         = rest.foldl (fun st r => r st a) (first s a)) ∧
    (∀ (State Action : Type) (r1 r2 r3 : State → Action → State)
       (s : State) (a : Action),
       combine_reducers r1 [r2, r3] s a = r3 (r2 (r1 s a) a) a) := by
  constructor
  · intro State Action first rest s a
    induction rest generalizing first s with
    | nil => rfl
    | cons second rest ih =>
      have hstep : combine_reducers first (second :: rest) s a
          = combine_reducers second rest (first s a) a := rfl
      rw [hstep, ih second (first s a)]
      simp
  · intro State Action r1 r2 r3 s a
    rfl

/-- C6: `replace_reducer(r2)` leaves the stored state, the middleware sequence
and the subscription sequence unchanged, installs `r2`, and a non-vetoed
dispatch after the call computes the new state with `r2`, while the same
dispatch on the store before the call computed it with the prior reducer. -/
theorem replace_reducer_swaps_only_reducer {State Action Listener : Type}
    (store : Store State Action Listener) (r2 : State → Action → State)
    (a af : Action) (h : chainFrom store.middleware store.state a = some af) :
    (store.replace_reducer r2).reducer = r2 ∧
    (store.replace_reducer r2).state = store.state ∧
    (store.replace_reducer r2).middleware = store.middleware ∧
    (store.replace_reducer r2).subscriptions = store.subscriptions ∧
    ((store.replace_reducer r2).dispatch a).store.state = r2 store.state af ∧
    (store.dispatch a).store.state = store.reducer store.state af := by
  refine ⟨rfl, rfl, rfl, rfl, ?_, ?_⟩
  · have h2 : chainFrom (store.replace_reducer r2).middleware
        (store.replace_reducer r2).state a = some af := h
    rw [dispatch_eq_some (store.replace_reducer r2) a af h2]
    rfl
  · rw [dispatch_eq_some store a af h]

theorem replace_reducer_swaps_only_reducer_witness :
    chainFrom demoStoreMw.middleware demoStoreMw.state 1 = some 2 ∧
    ((demoStoreMw.replace_reducer fun s a => s * a).reducer
        = (fun s a => s * a) ∧
     (demoStoreMw.replace_reducer fun s a => s * a).state = demoStoreMw.state ∧
     (demoStoreMw.replace_reducer fun s a => s * a).middleware
        = demoStoreMw.middleware ∧
     (demoStoreMw.replace_reducer fun s a => s * a).subscriptions
        = demoStoreMw.subscriptions ∧
     ((demoStoreMw.replace_reducer fun s a => s * a).dispatch 1).store.state
        = demoStoreMw.state * 2 ∧
     (demoStoreMw.dispatch 1).store.state
        = demoStoreMw.reducer demoStoreMw.state 2) :=
  ⟨rfl, replace_reducer_swaps_only_reducer demoStoreMw (fun s a => s * a) 1 2 rfl⟩

/-- C7: invariant over the public operations: `new`, `subscribe`,
`add_middleware` and `replace_reducer` never change the stored state, and a
`dispatch` either leaves the state unchanged with no reducer invocation at all
(veto) or produces exactly the output of the single recorded reducer
invocation on the pre-dispatch state. Middleware and subscriptions only ever
receive a read view, so in the embedding they cannot write the state. -/
theorem state_changes_only_by_reducer {State Action Listener : Type}
    (store : Store State Action Listener) (r : State → Action → State)
    (s0 : State) (c : Listener) (m : State → Action → Option Action)
    (a : Action) :
    (Store.new r s0 : Store State Action Listener).state = s0 ∧
    (store.subscribe c).state = store.state ∧
    (store.add_middleware m).state = store.state ∧
    (store.replace_reducer r).state = store.state ∧
    (((store.dispatch a).store.state = store.state ∧
        (store.dispatch a).reducerCalls = []) ∨
      ∃ af, (store.dispatch a).reducerCalls = [(store.state, af)] ∧
        (store.dispatch a).store.state = store.reducer store.state af) := by
  refine ⟨rfl, rfl, rfl, rfl, ?_⟩
  cases hc : chainFrom store.middleware store.state a with
  | none =>
    left
    rw [dispatch_eq_none store a hc]
    exact ⟨rfl, rfl⟩
  | some af =>
    right
    refine ⟨af, ?_, ?_⟩
    · rw [dispatch_eq_some store a af hc]
    · rw [dispatch_eq_some store a af hc]

/-- C8: `subscribe` appends exactly one element at the end of the subscription
sequence and `add_middleware` appends exactly one element at the end of the
middleware sequence; each leaves the stored state, the active reducer and the
other sequence untouched. -/
theorem subscribe_add_middleware_append {State Action Listener : Type}
    (store : Store State Action Listener) (c : Listener)
    (m : State → Action → Option Action) :
    (store.subscribe c).subscriptions = store.subscriptions ++ [c] ∧
    (store.subscribe c).state = store.state ∧
    (store.subscribe c).reducer = store.reducer ∧
    (store.subscribe c).middleware = store.middleware ∧
    (store.add_middleware m).middleware = store.middleware ++ [m] ∧
    (store.add_middleware m).state = store.state ∧
    (store.add_middleware m).reducer = store.reducer ∧
    (store.add_middleware m).subscriptions = store.subscriptions :=
  ⟨rfl, rfl, rfl, rfl, rfl, rfl, rfl, rfl⟩

/-- C9: the recursive middleware walk is total (it is a Lean function), and
the number of middleware calls it performs from any in-bounds starting index
is bounded by the middleware remaining from that index; hence a full dispatch
performs at most one call per registered middleware. -/
theorem dispatch_middleware_call_count_bounded {State Action Listener : Type}
    (store : Store State Action Listener) (index : Nat) (a : Action)
    (h : index ≤ store.middleware.length) :
    (store.dispatch_middleware index a).mwCalls.length
      ≤ store.middleware.length - index ∧
    (store.dispatch a).mwCalls.length ≤ store.middleware.length := by
  constructor
  · rw [dispatch_middleware_eq store (store.middleware.length - index) index a rfl h]
    have hb := walkCalls_length_le (store.middleware.drop index) store.state a index
    cases hc : chainFrom (store.middleware.drop index) store.state a <;>
      simpa [List.length_drop] using hb
  · rw [dispatch_eq store a]
    have hb := walkCalls_length_le store.middleware store.state a 0
    cases hc : chainFrom store.middleware store.state a <;> simpa using hb

theorem dispatch_middleware_call_count_bounded_witness :
    (1 : Nat) ≤ demoStoreMw.middleware.length ∧
    ((demoStoreMw.dispatch_middleware 1 3).mwCalls.length
        ≤ demoStoreMw.middleware.length - 1 ∧
     (demoStoreMw.dispatch 3).mwCalls.length ≤ demoStoreMw.middleware.length) :=
  ⟨by decide, dispatch_middleware_call_count_bounded demoStoreMw 1 3 (by decide)⟩

/-- C10: every middleware invocation of a dispatch observes, through the store
view it receives, exactly the state the store held when `dispatch` was called:
the stored state is not replaced while the chain is still running. -/
theorem middleware_observes_dispatch_time_state {State Action Listener : Type}
    (store : Store State Action Listener) (a : Action)
    (e : Nat × State × Action) (h : e ∈ (store.dispatch a).mwCalls) :
    e.2.1 = store.state := by
  rw [dispatch_eq store a] at h
  cases hc : chainFrom store.middleware store.state a with
  | none =>
    rw [hc] at h
    exact walkCalls_state_eq store.middleware store.state a 0 e (by simpa using h)
  | some af =>
    rw [hc] at h
    exact walkCalls_state_eq store.middleware store.state a 0 e (by simpa using h)

theorem middleware_observes_dispatch_time_state_witness :
    ((0 : Nat), ((5 : Nat), (1 : Nat))) ∈ (demoStoreMw.dispatch 1).mwCalls ∧
    ((0 : Nat), ((5 : Nat), (1 : Nat))).2.1 = demoStoreMw.state := by
  have hm : ((0 : Nat), ((5 : Nat), (1 : Nat))) ∈ (demoStoreMw.dispatch 1).mwCalls := by
    rw [dispatch_eq demoStoreMw 1]
    decide
  exact ⟨hm, middleware_observes_dispatch_time_state demoStoreMw 1 _ hm⟩
